import Mathlib

/-!
Shallow embedding of the randomized-scenario data-generation loop of
Scripts/generate_training_data.py (the Scenario Sampler and Dataset Builder).

Power values and percentage draws are modelled as rationals; the circuit held
by the external engine is modelled as ordered association lists from component
name to its (kW, kvar) pair, mirroring the engine's name-indexed Loads and
Generators collections and preserving their iteration order.  Python's global
random module is modelled as explicit streams of raw draws, split per scenario
and per purpose: a faithful reparametrisation of one global stream, since each
draw is consumed exactly once in program order.  The solve engine is an
abstract oracle: a deterministic convergence flag and per-bus voltage reading,
both functions of the circuit state presented to the solver.
-/

namespace GenData

/-- Parameters of one load or generator: real power kW and reactive power
kvar, as read and written through the engine interface. -/
structure Params where
  kW : ℚ
  kvar : ℚ
deriving DecidableEq, Repr

/-- Circuit state owned by the engine: loads, generators (association lists
name to Params, in the engine's iteration order) and the bus name list. -/
structure Circuit where
  loads : List (String × Params)
  gens : List (String × Params)
  buses : List String
deriving DecidableEq, Repr

/-- Names of the loads collection, as dssCircuit.Loads.AllNames. -/
def loadNames (c : Circuit) : List String := c.loads.map Prod.fst

/-- Names of the generators collection, as dssCircuit.Generators.AllNames. -/
def genNames (c : Circuit) : List String := c.gens.map Prod.fst

/-- Look up a component by name in an association list, first match wins;
models selecting the active element by assigning its Name. -/
def getParam (n : String) : List (String × Params) → Option Params
  | [] => none
  | p :: rest => if p.1 = n then some p.2 else getParam n rest

/-- Overwrite the entry of name n with value v, models assigning kW and kvar
through the active element after selecting it by name. -/
def setParam (ls : List (String × Params)) (n : String) (v : Params) :
    List (String × Params) :=
  ls.map (fun p => if p.1 = n then (p.1, v) else p)

/-- Multiplicative update of one attribute: with a drawn percentage pct the
code computes a scaling factor 1 + pct/100 and multiplies in place; with
Python None it leaves the attribute untouched. -/
def applyPct (v : ℚ) : Option ℚ → ℚ
  | none => v
  | some pct => v * (1 + pct / 100)

/-- Both attribute updates of one modify call. -/
def applyPcts (p : Params) (kw kvar : Option ℚ) : Params :=
  ⟨applyPct p.kW kw, applyPct p.kvar kvar⟩

/-- Apply one modify call to an association list at the given name. -/
def modifyList (ls : List (String × Params)) (name : String)
    (kw kvar : Option ℚ) : List (String × Params) :=
  ls.map (fun p => if p.1 = name then (p.1, applyPcts p.2 kw kvar) else p)

/-- Embeds modify_load_parameters (lines 48-60): select the load by name and
scale kW and kvar by 1 + pct/100 for each percentage that is not None. -/
def modify_load_parameters (c : Circuit) (name : String)
    (kw_pct kvar_pct : Option ℚ) : Circuit :=
  { c with loads := modifyList c.loads name kw_pct kvar_pct }

/-- Embeds modify_generator_parameters (lines 63-75), identical to the load
version but acting on the generators collection. -/
def modify_generator_parameters (c : Circuit) (name : String)
    (kw_pct kvar_pct : Option ℚ) : Circuit :=
  { c with gens := modifyList c.gens name kw_pct kvar_pct }

/-- Embeds store_original_parameters (lines 115-130): read every load's and
generator's (kW, kvar) into name-keyed snapshots. -/
def store_original_parameters (c : Circuit) :
    List (String × Params) × List (String × Params) :=
  (c.loads, c.gens)

/-- Embeds reset_to_original_parameters (lines 133-144): for every snapshotted
name write its stored kW and kvar back through the engine. -/
def reset_to_original_parameters (c : Circuit)
    (original_loads original_gens : List (String × Params)) : Circuit :=
  { c with
    loads := original_loads.foldl (fun ls np => setParam ls np.1 np.2) c.loads
    gens := original_gens.foldl (fun gs np => setParam gs np.1 np.2) c.gens }

/-- Python int() applied to a rational: truncation toward zero. -/
def pyInt (q : ℚ) : ℤ := if 0 ≤ q then ⌊q⌋ else ⌈q⌉

/-- Embeds lines 215-217: max(1, int((percentage_of_loads_to_change / 100) *
total_loads)). -/
def number_of_loads_to_change (pct : ℚ) (total : ℕ) : ℕ :=
  (max 1 (pyInt (pct / 100 * total))).toNat

/-- Embeds lines 218-220, the generator analogue. -/
def number_of_generators_to_change (pct : ℚ) (total : ℕ) : ℕ :=
  (max 1 (pyInt (pct / 100 * total))).toNat

/-- Embeds random.uniform(a, b): a + (b - a) * u where u is the raw draw of
the underlying generator. -/
def pyUniform (a b u : ℚ) : ℚ := a + (b - a) * u

/-- Selection core of random.sample: k times, draw a raw index, pick that
position of the remaining population and remove it. -/
def sampleAux : List String → ℕ → (ℕ → ℕ) → ℕ → List String
  | _, 0, _, _ => []
  | pop, k + 1, idx, t =>
    let j := idx t % pop.length
    match pop[j]? with
    | none => []
    | some x => x :: sampleAux (pop.eraseIdx j) k idx (t + 1)

/-- Embeds random.sample(population, k): draws k distinct positions without
replacement; raises ValueError (here: none) when k exceeds the population
size. idx is the raw index stream, t the position of the next draw in it. -/
def pySample (pop : List String) (k : ℕ) (idx : ℕ → ℕ) (t : ℕ) :
    Option (List String) :=
  if k ≤ pop.length then some (sampleAux pop k idx t) else none

/-- Loop of lines 237-243: for each selected load, in order, draw a kW
percentage then a kvar percentage and call modify_load_parameters.  j counts
components already processed; the j-th component consumes raw draws 2j and
2j+1 of the scenario's load stream. -/
def perturbLoadsFrom (kwR kvarR : ℚ × ℚ) (u : ℕ → ℚ) :
    List String → ℕ → Circuit → Circuit
  | [], _, c => c
  | n :: rest, j, c =>
    perturbLoadsFrom kwR kvarR u rest (j + 1)
      (modify_load_parameters c n
        (some (pyUniform kwR.1 kwR.2 (u (2 * j))))
        (some (pyUniform kvarR.1 kvarR.2 (u (2 * j + 1)))))

/-- Loop of lines 246-252, generator analogue. -/
def perturbGensFrom (kwR kvarR : ℚ × ℚ) (u : ℕ → ℚ) :
    List String → ℕ → Circuit → Circuit
  | [], _, c => c
  | n :: rest, j, c =>
    perturbGensFrom kwR kvarR u rest (j + 1)
      (modify_generator_parameters c n
        (some (pyUniform kwR.1 kwR.2 (u (2 * j))))
        (some (pyUniform kvarR.1 kvarR.2 (u (2 * j + 1)))))

/-- Solve engine as a black-box oracle: deterministic convergence flag and
per-bus voltage magnitudes, both functions of the circuit handed to Solve. -/
structure Oracle where
  converged : Circuit → Bool
  volts : Circuit → List ℚ

/-- Feature entries contributed by the loads loop of collect_data_for_ml
(lines 166-170): keys load_name_kW and load_name_kvar in iteration order. -/
def loadFeatures : List (String × Params) → List (String × ℚ)
  | [] => []
  | p :: rest =>
    ("load_" ++ p.1 ++ "_kW", p.2.kW) ::
    ("load_" ++ p.1 ++ "_kvar", p.2.kvar) :: loadFeatures rest

/-- Feature entries contributed by the generators loop (lines 172-176). -/
def genFeatures : List (String × Params) → List (String × ℚ)
  | [] => []
  | p :: rest =>
    ("gen_" ++ p.1 ++ "_kW", p.2.kW) ::
    ("gen_" ++ p.1 ++ "_kvar", p.2.kvar) :: genFeatures rest

/-- All features of one row: loads first, then generators, as the two loops
insert them into the features dict. -/
def features (c : Circuit) : List (String × ℚ) :=
  loadFeatures c.loads ++ genFeatures c.gens

/-- Label entries (lines 179-180): bus_name_Vpu keyed voltages, zipping bus
names with the voltage vector returned by the oracle. -/
def labels (buses : List String) (volts : List ℚ) : List (String × ℚ) :=
  (buses.zip volts).map (fun bv => ("bus_" ++ bv.1 ++ "_Vpu", bv.2))

/-- Embeds collect_data_for_ml (lines 147-182): solve, return None on
non-convergence, otherwise read back every load and generator attribute as
features and every bus voltage as labels. -/
def collect_data_for_ml (orc : Oracle) (c : Circuit) :
    Option (List (String × ℚ) × List (String × ℚ)) :=
  if orc.converged c then some (features c, labels c.buses (orc.volts c))
  else none

/-- One dataset row, the merged dict of line 256: features then labels, in
insertion order. -/
abbrev Row : Type := List (String × ℚ)

/-- Run configuration of main (lines 199-210), lifted to parameters; the
script hardcodes N = 500, percentages 70 and 30 and the four ranges. -/
structure RunConfig where
  numSims : ℕ
  pctLoads : ℚ
  pctGens : ℚ
  loadKwRange : ℚ × ℚ
  loadKvarRange : ℚ × ℚ
  genKwRange : ℚ × ℚ
  genKvarRange : ℚ × ℚ

/-- Raw randomness consumed by a run: for scenario i, idxs i feeds the two
sample calls (loads at positions 0..kL-1, generators from kL on) and us i
feeds the uniform draws (loads at 0..2kL-1, generators from 2kL on). -/
structure Rand where
  idxs : ℕ → ℕ → ℕ
  us : ℕ → ℕ → ℚ

/-- The k for loads computed once before the loop (lines 212, 215-217). -/
def kLoadOf (cfg : RunConfig) (c0 : Circuit) : ℕ :=
  number_of_loads_to_change cfg.pctLoads (loadNames c0).length

/-- The k for generators computed once before the loop (lines 213, 218-220). -/
def kGenOf (cfg : RunConfig) (c0 : Circuit) : ℕ :=
  number_of_generators_to_change cfg.pctGens (genNames c0).length

/-- Perturbation phase of one scenario given the two selections: the loads
loop of lines 237-243 then the generators loop of lines 246-252; generator
draws follow the 2 kL load draws in program order. -/
def applyScenario (cfg : RunConfig) (kL : ℕ) (us : ℕ → ℚ)
    (selL selG : List String) (c1 : Circuit) : Circuit :=
  perturbGensFrom cfg.genKwRange cfg.genKvarRange (fun t => us (2 * kL + t))
    selG 0
    (perturbLoadsFrom cfg.loadKwRange cfg.loadKvarRange us selL 0 c1)

/-- One iteration of the loop of lines 222-256 acting on the current circuit:
reset to the snapshot, sample the loads and generators to change from the
current name lists, perturb them, then solve and collect.  Returns none when
random.sample raises (k larger than the population), which aborts the run;
otherwise the circuit as left at solve time together with the optional row. -/
def scenarioStep (cfg : RunConfig) (orc : Oracle)
    (origL origG : List (String × Params)) (kL kG : ℕ)
    (idxs : ℕ → ℕ) (us : ℕ → ℚ) (c : Circuit) :
    Option (Circuit × Option Row) :=
  let c1 := reset_to_original_parameters c origL origG
  match pySample (loadNames c1) kL idxs 0,
        pySample (genNames c1) kG idxs kL with
  | some selL, some selG =>
    let c3 := applyScenario cfg kL us selL selG c1
    some (c3, (collect_data_for_ml orc c3).map (fun fl => fl.1 ++ fl.2))
  | _, _ => none

/-- The batch loop: run n scenarios starting at index i from circuit c,
accumulating the retained rows in order; none models an uncaught exception
aborting the run. -/
def runFrom (cfg : RunConfig) (orc : Oracle)
    (origL origG : List (String × Params)) (kL kG : ℕ) (r : Rand) :
    ℕ → ℕ → Circuit → Option (List Row)
  | _, 0, _ => some []
  | i, n + 1, c =>
    match scenarioStep cfg orc origL origG kL kG (r.idxs i) (r.us i) c with
    | none => none
    | some (c', rowOpt) =>
      (runFrom cfg orc origL origG kL kG r (i + 1) n c').map
        (fun rest => rowOpt.toList ++ rest)

/-- Embeds main (lines 196-262): snapshot once, compute the two ks once, run
the batch loop; the returned rows are the DataFrame written to CSV. -/
def mainRun (cfg : RunConfig) (orc : Oracle) (c0 : Circuit) (r : Rand) :
    Option (List Row) :=
  let origs := store_original_parameters c0
  runFrom cfg orc origs.1 origs.2 (kLoadOf cfg c0) (kGenOf cfg c0) r
    0 cfg.numSims c0

/-- Observer: the circuit state at entry of scenario i along the run's
trajectory (state 0 is the freshly compiled circuit). -/
def stateAt (cfg : RunConfig) (orc : Oracle) (c0 : Circuit) (r : Rand) :
    ℕ → Option Circuit
  | 0 => some c0
  | i + 1 =>
    (stateAt cfg orc c0 r i).bind fun c =>
      (scenarioStep cfg orc c0.loads c0.gens (kLoadOf cfg c0) (kGenOf cfg c0)
        (r.idxs i) (r.us i) c).map Prod.fst

/-- Observer: the load names scenario i samples for perturbation.  The
population the code passes is the live circuit's AllNames, which the run
keeps equal to the initial name list. -/
def selLoadsAt (cfg : RunConfig) (c0 : Circuit) (r : Rand) (i : ℕ) :
    Option (List String) :=
  pySample (loadNames c0) (kLoadOf cfg c0) (r.idxs i) 0

/-- Observer: the generator names scenario i samples for perturbation. -/
def selGensAt (cfg : RunConfig) (c0 : Circuit) (r : Rand) (i : ℕ) :
    Option (List String) :=
  pySample (genNames c0) (kGenOf cfg c0) (r.idxs i) (kLoadOf cfg c0)

/-- Observer counting the scenarios of the run that the oracle fails to
converge on, along the same trajectory as runFrom; the script itself keeps no
such count, this definition only names the quantity for stating properties. -/
def skippedFrom (cfg : RunConfig) (orc : Oracle)
    (origL origG : List (String × Params)) (kL kG : ℕ) (r : Rand) :
    ℕ → ℕ → Circuit → ℕ
  | _, 0, _ => 0
  | i, n + 1, c =>
    match scenarioStep cfg orc origL origG kL kG (r.idxs i) (r.us i) c with
    | none => 0
    | some (c', rowOpt) =>
      (if rowOpt.isSome then 0 else 1) +
        skippedFrom cfg orc origL origG kL kG r (i + 1) n c'

/-- Number of skipped (non-converged) scenarios of a whole run. -/
def skippedCount (cfg : RunConfig) (orc : Oracle) (c0 : Circuit) (r : Rand) :
    ℕ :=
  skippedFrom cfg orc c0.loads c0.gens (kLoadOf cfg c0) (kGenOf cfg c0) r
    0 cfg.numSims c0

/-- Column order pandas derives for DataFrame(list-of-dicts) (line 259):
fold over the rows, appending each key not yet seen, in row order. -/
def dfColumns (rows : List Row) : List String :=
  rows.foldl
    (fun cols row =>
      cols ++ (row.map Prod.fst).filter (fun k => !(cols.contains k))) []

/-- Feature column names determined by a load name list. -/
def loadKeys : List String → List String
  | [] => []
  | n :: rest =>
    ("load_" ++ n ++ "_kW") :: ("load_" ++ n ++ "_kvar") :: loadKeys rest

/-- Feature column names determined by a generator name list. -/
def genKeys : List String → List String
  | [] => []
  | n :: rest =>
    ("gen_" ++ n ++ "_kW") :: ("gen_" ++ n ++ "_kvar") :: genKeys rest

/-- Label column names determined by the bus list. -/
def busKeys (buses : List String) : List String :=
  buses.map (fun b => "bus_" ++ b ++ "_Vpu")

/-- The full stable column list of a run over circuit c0. -/
def schemaOf (c0 : Circuit) : List String :=
  loadKeys (loadNames c0) ++ genKeys (genNames c0) ++ busKeys c0.buses

/-- Modelled from the spec (testable property 4): the selection count the
spec prescribes, max(1, round(fraction * total)), with fraction the selection
fraction; stated for comparison with number_of_loads_to_change. -/
def specSelectionCount (frac : ℚ) (total : ℕ) : ℕ :=
  (max 1 (round (frac * total))).toNat

/-- Concrete two-load, one-generator, one-bus circuit used to exercise the
run on explicit inputs. -/
def circuitW : Circuit :=
  { loads := [("l1", ⟨10, 2⟩), ("l2", ⟨20, 4⟩)]
    gens := [("g1", ⟨5, 1⟩)]
    buses := ["b1"] }

/-- Concrete one-load, one-generator circuit. -/
def circuitS : Circuit :=
  { loads := [("l1", ⟨10, 2⟩)]
    gens := [("g1", ⟨5, 1⟩)]
    buses := ["b1"] }

/-- Concrete four-load circuit. -/
def circuit4 : Circuit :=
  { loads := [("l1", ⟨10, 2⟩), ("l2", ⟨10, 2⟩), ("l3", ⟨10, 2⟩),
              ("l4", ⟨10, 2⟩)]
    gens := [("g1", ⟨5, 1⟩)]
    buses := ["b1"] }

/-- Concrete configuration: two scenarios, change 50 percent of loads and 100
percent of generators, with the ranges the script hardcodes. -/
def cfgW : RunConfig :=
  { numSims := 2, pctLoads := 50, pctGens := 100
    loadKwRange := (-50, 50), loadKvarRange := (-10, 10)
    genKwRange := (-50, 50), genKvarRange := (-10, 10) }

/-- Concrete configuration with a single scenario and both percentages 100. -/
def cfgS : RunConfig :=
  { numSims := 1, pctLoads := 100, pctGens := 100
    loadKwRange := (-50, 50), loadKvarRange := (-10, 10)
    genKwRange := (-50, 50), genKvarRange := (-10, 10) }

/-- cfgS with zero scenarios requested. -/
def cfgS0 : RunConfig := { cfgS with numSims := 0 }

/-- Configuration requesting 150 percent of the loads. -/
def cfg150 : RunConfig := { cfgS with pctLoads := 150 }

/-- Stub oracle: always converges, one unit voltage per bus. -/
def orcW : Oracle :=
  { converged := fun _ => true, volts := fun c => c.buses.map (fun _ => 1) }

/-- Stub oracle that never converges. -/
def orcNever : Oracle :=
  { converged := fun _ => false, volts := fun c => c.buses.map (fun _ => 1) }

/-- Raw randomness that always draws zero. -/
def randZero : Rand := ⟨fun _ _ => 0, fun _ _ => 0⟩

/-- Raw randomness drawing one half for every uniform. -/
def randHalf : Rand := ⟨fun _ _ => 0, fun _ _ => 1/2⟩

/-- Raw randomness that agrees with randZero on scenario 0 and differs from
scenario 1 on. -/
def randLate : Rand :=
  ⟨fun i _ => if 1 ≤ i then 5 else 0, fun i _ => if 1 ≤ i then 1 else 0⟩

theorem map_fst_setParam (ls : List (String × Params)) (n : String)
    (v : Params) : (setParam ls n v).map Prod.fst = ls.map Prod.fst := by
  induction ls with
  | nil => rfl
  | cons p rest ih =>
    simp only [setParam, List.map_cons] at ih ⊢
    by_cases h : p.1 = n <;> simp [h, ih]

theorem setParam_of_not_mem (ls : List (String × Params)) (n : String)
    (v : Params) (h : n ∉ ls.map Prod.fst) : setParam ls n v = ls := by
  induction ls with
  | nil => rfl
  | cons p rest ih =>
    simp only [List.map_cons, List.mem_cons] at h
    push_neg at h
    simp only [setParam, List.map_cons] at ih ⊢
    rw [if_neg (fun hc => h.1 hc.symm), ih h.2]

theorem getParam_setParam_other (ls : List (String × Params)) (n m : String)
    (v : Params) (h : m ≠ n) : getParam m (setParam ls n v) = getParam m ls := by
  induction ls with
  | nil => rfl
  | cons p rest ih =>
    simp only [setParam, List.map_cons] at ih ⊢
    by_cases hp : p.1 = n
    · have hpm : ¬ p.1 = m := fun hc => h (hc.symm.trans hp)
      have hnm : ¬ n = m := fun hc => h hc.symm
      simp [getParam, hp, hpm, hnm, ih]
    · simp only [if_neg hp]
      by_cases hm : p.1 = m <;> simp [getParam, hm, ih]

theorem foldl_set_cons (ol : List (String × Params)) (n : String) (p : Params)
    (ls : List (String × Params)) (h : n ∉ ol.map Prod.fst) :
    ol.foldl (fun a np => setParam a np.1 np.2) ((n, p) :: ls) =
      (n, p) :: ol.foldl (fun a np => setParam a np.1 np.2) ls := by
  induction ol generalizing ls with
  | nil => rfl
  | cons q tl ih =>
    simp only [List.map_cons, List.mem_cons] at h
    push_neg at h
    have hq : ¬ (n = q.1) := h.1
    simp only [List.foldl_cons, setParam, List.map_cons, if_neg hq]
    exact ih (setParam ls q.1 q.2) h.2

theorem foldl_set_restore (ol : List (String × Params)) :
    ∀ ls : List (String × Params), ls.map Prod.fst = ol.map Prod.fst →
      (ol.map Prod.fst).Nodup →
      ol.foldl (fun a np => setParam a np.1 np.2) ls = ol := by
  induction ol with
  | nil =>
    intro ls h _
    simp only [List.map_nil, List.map_eq_nil_iff] at h
    simp [h]
  | cons q tl ih =>
    intro ls h hnd
    match ls with
    | [] => simp at h
    | p :: ls' =>
      simp only [List.map_cons, List.cons.injEq] at h
      simp only [List.map_cons, List.nodup_cons] at hnd
      have hfst : p.1 = q.1 := h.1
      have hnotin : q.1 ∉ ls'.map Prod.fst := by rw [h.2]; exact hnd.1
      have hset : setParam (p :: ls') q.1 q.2 = (q.1, q.2) :: ls' := by
        simp only [setParam, List.map_cons, if_pos hfst, hfst]
        exact congrArg (List.cons (q.1, q.2))
          (setParam_of_not_mem ls' q.1 q.2 hnotin)
      simp only [List.foldl_cons, hset]
      rw [foldl_set_cons tl q.1 q.2 ls' hnd.1]
      rw [ih ls' h.2 hnd.2]

theorem map_fst_foldl_set (ol : List (String × Params)) :
    ∀ ls : List (String × Params),
      (ol.foldl (fun a np => setParam a np.1 np.2) ls).map Prod.fst =
        ls.map Prod.fst := by
  induction ol with
  | nil => intro ls; rfl
  | cons q tl ih =>
    intro ls
    simp only [List.foldl_cons]
    rw [ih (setParam ls q.1 q.2), map_fst_setParam]

theorem map_fst_modifyList (ls : List (String × Params)) (n : String)
    (kw kv : Option ℚ) : (modifyList ls n kw kv).map Prod.fst = ls.map Prod.fst := by
  induction ls with
  | nil => rfl
  | cons p rest ih =>
    simp only [modifyList, List.map_cons] at ih ⊢
    by_cases h : p.1 = n <;> simp [h, ih]

theorem getParam_modifyList_self (ls : List (String × Params)) (n : String)
    (kw kv : Option ℚ) :
    getParam n (modifyList ls n kw kv) =
      (getParam n ls).map (fun p => applyPcts p kw kv) := by
  induction ls with
  | nil => rfl
  | cons p rest ih =>
    by_cases h : p.1 = n
    · simp [modifyList, getParam, h]
    · simp only [modifyList, List.map_cons, if_neg h, getParam] at ih ⊢
      simp [if_neg h, ih]

theorem getParam_modifyList_other (ls : List (String × Params)) (n m : String)
    (kw kv : Option ℚ) (h : m ≠ n) :
    getParam m (modifyList ls n kw kv) = getParam m ls := by
  induction ls with
  | nil => rfl
  | cons p rest ih =>
    simp only [modifyList, List.map_cons] at ih ⊢
    by_cases hp : p.1 = n
    · have hpm : ¬ p.1 = m := fun hc => h (hc.symm.trans hp)
      have hnm : ¬ n = m := fun hc => h hc.symm
      simp [getParam, hp, hpm, hnm, ih]
    · simp only [if_neg hp]
      by_cases hm : p.1 = m <;> simp [getParam, hm, ih]

theorem reset_loads_gens_buses (c : Circuit)
    (ol og : List (String × Params)) :
    loadNames (reset_to_original_parameters c ol og) = loadNames c ∧
      genNames (reset_to_original_parameters c ol og) = genNames c ∧
      (reset_to_original_parameters c ol og).buses = c.buses :=
  ⟨map_fst_foldl_set ol c.loads, map_fst_foldl_set og c.gens, rfl⟩

theorem reset_restores (c c0 : Circuit)
    (hL : loadNames c = loadNames c0) (hG : genNames c = genNames c0)
    (hndL : (loadNames c0).Nodup) (hndG : (genNames c0).Nodup) :
    (reset_to_original_parameters c c0.loads c0.gens).loads = c0.loads ∧
      (reset_to_original_parameters c c0.loads c0.gens).gens = c0.gens ∧
      (reset_to_original_parameters c c0.loads c0.gens).buses = c.buses :=
  ⟨foldl_set_restore c0.loads c.loads hL hndL,
    foldl_set_restore c0.gens c.gens hG hndG, rfl⟩

theorem perturbLoadsFrom_frame (kwR kvarR : ℚ × ℚ) (u : ℕ → ℚ) :
    ∀ (sel : List String) (j : ℕ) (c : Circuit),
      (perturbLoadsFrom kwR kvarR u sel j c).gens = c.gens ∧
        (perturbLoadsFrom kwR kvarR u sel j c).buses = c.buses ∧
        loadNames (perturbLoadsFrom kwR kvarR u sel j c) = loadNames c := by
  intro sel
  induction sel with
  | nil => intro j c; exact ⟨rfl, rfl, rfl⟩
  | cons n rest ih =>
    intro j c
    obtain ⟨h1, h2, h3⟩ := ih (j + 1) (modify_load_parameters c n
      (some (pyUniform kwR.1 kwR.2 (u (2 * j))))
      (some (pyUniform kvarR.1 kvarR.2 (u (2 * j + 1)))))
    refine ⟨h1.trans rfl, h2.trans rfl, h3.trans ?_⟩
    exact map_fst_modifyList c.loads n _ _

theorem perturbGensFrom_frame (kwR kvarR : ℚ × ℚ) (u : ℕ → ℚ) :
    ∀ (sel : List String) (j : ℕ) (c : Circuit),
      (perturbGensFrom kwR kvarR u sel j c).loads = c.loads ∧
        (perturbGensFrom kwR kvarR u sel j c).buses = c.buses ∧
        genNames (perturbGensFrom kwR kvarR u sel j c) = genNames c := by
  intro sel
  induction sel with
  | nil => intro j c; exact ⟨rfl, rfl, rfl⟩
  | cons n rest ih =>
    intro j c
    obtain ⟨h1, h2, h3⟩ := ih (j + 1) (modify_generator_parameters c n
      (some (pyUniform kwR.1 kwR.2 (u (2 * j))))
      (some (pyUniform kvarR.1 kvarR.2 (u (2 * j + 1)))))
    refine ⟨h1.trans rfl, h2.trans rfl, h3.trans ?_⟩
    exact map_fst_modifyList c.gens n _ _

theorem getParam_perturbLoadsFrom_not_mem (kwR kvarR : ℚ × ℚ) (u : ℕ → ℚ) :
    ∀ (sel : List String) (j : ℕ) (c : Circuit) (n : String), n ∉ sel →
      getParam n (perturbLoadsFrom kwR kvarR u sel j c).loads =
        getParam n c.loads := by
  intro sel
  induction sel with
  | nil => intro j c n _; rfl
  | cons m rest ih =>
    intro j c n hn
    simp only [List.mem_cons] at hn
    push_neg at hn
    rw [perturbLoadsFrom, ih (j + 1) _ n hn.2]
    exact getParam_modifyList_other c.loads m n _ _ hn.1

theorem getParam_perturbGensFrom_not_mem (kwR kvarR : ℚ × ℚ) (u : ℕ → ℚ) :
    ∀ (sel : List String) (j : ℕ) (c : Circuit) (n : String), n ∉ sel →
      getParam n (perturbGensFrom kwR kvarR u sel j c).gens =
        getParam n c.gens := by
  intro sel
  induction sel with
  | nil => intro j c n _; rfl
  | cons m rest ih =>
    intro j c n hn
    simp only [List.mem_cons] at hn
    push_neg at hn
    rw [perturbGensFrom, ih (j + 1) _ n hn.2]
    exact getParam_modifyList_other c.gens m n _ _ hn.1

theorem getParam_perturbLoadsFrom_mem (kwR kvarR : ℚ × ℚ) (u : ℕ → ℚ) :
    ∀ (sel : List String) (j : ℕ) (c : Circuit), sel.Nodup →
      ∀ (m : ℕ) (hm : m < sel.length),
        getParam (sel.get ⟨m, hm⟩) (perturbLoadsFrom kwR kvarR u sel j c).loads =
          (getParam (sel.get ⟨m, hm⟩) c.loads).map (fun p =>
            applyPcts p (some (pyUniform kwR.1 kwR.2 (u (2 * (j + m)))))
              (some (pyUniform kvarR.1 kvarR.2 (u (2 * (j + m) + 1))))) := by
  intro sel
  induction sel with
  | nil => intro j c _ m hm; exact absurd hm (by simp)
  | cons n rest ih =>
    intro j c hnd m hm
    simp only [List.nodup_cons] at hnd
    match m with
    | 0 =>
      simp only [List.get]
      rw [perturbLoadsFrom,
        getParam_perturbLoadsFrom_not_mem kwR kvarR u rest (j + 1) _ n hnd.1]
      have := getParam_modifyList_self c.loads n
        (some (pyUniform kwR.1 kwR.2 (u (2 * j))))
        (some (pyUniform kvarR.1 kvarR.2 (u (2 * j + 1))))
      simpa [modify_load_parameters] using this
    | Nat.succ m' =>
      simp only [List.get]
      have hm' : m' < rest.length := Nat.lt_of_succ_lt_succ hm
      have hne : rest.get ⟨m', hm'⟩ ≠ n := by
        intro hc
        exact hnd.1 (hc ▸ rest.get_mem m' hm')
      rw [perturbLoadsFrom, ih (j + 1) _ hnd.2 m' hm']
      simp only [modify_load_parameters]
      rw [getParam_modifyList_other c.loads n _ _ _ hne]
      have harith : j + 1 + m' = j + (m' + 1) := by omega
      rw [harith]

theorem getParam_perturbGensFrom_mem (kwR kvarR : ℚ × ℚ) (u : ℕ → ℚ) :
    ∀ (sel : List String) (j : ℕ) (c : Circuit), sel.Nodup →
      ∀ (m : ℕ) (hm : m < sel.length),
        getParam (sel.get ⟨m, hm⟩) (perturbGensFrom kwR kvarR u sel j c).gens =
          (getParam (sel.get ⟨m, hm⟩) c.gens).map (fun p =>
            applyPcts p (some (pyUniform kwR.1 kwR.2 (u (2 * (j + m)))))
              (some (pyUniform kvarR.1 kvarR.2 (u (2 * (j + m) + 1))))) := by
  intro sel
  induction sel with
  | nil => intro j c _ m hm; exact absurd hm (by simp)
  | cons n rest ih =>
    intro j c hnd m hm
    simp only [List.nodup_cons] at hnd
    match m with
    | 0 =>
      simp only [List.get]
      rw [perturbGensFrom,
        getParam_perturbGensFrom_not_mem kwR kvarR u rest (j + 1) _ n hnd.1]
      have := getParam_modifyList_self c.gens n
        (some (pyUniform kwR.1 kwR.2 (u (2 * j))))
        (some (pyUniform kvarR.1 kvarR.2 (u (2 * j + 1))))
      simpa [modify_generator_parameters] using this
    | Nat.succ m' =>
      simp only [List.get]
      have hm' : m' < rest.length := Nat.lt_of_succ_lt_succ hm
      have hne : rest.get ⟨m', hm'⟩ ≠ n := by
        intro hc
        exact hnd.1 (hc ▸ rest.get_mem m' hm')
      rw [perturbGensFrom, ih (j + 1) _ hnd.2 m' hm']
      simp only [modify_generator_parameters]
      rw [getParam_modifyList_other c.gens n _ _ _ hne]
      have harith : j + 1 + m' = j + (m' + 1) := by omega
      rw [harith]

theorem getElem_not_mem_eraseIdx :
    ∀ (l : List String), l.Nodup → ∀ (j : ℕ) (hj : j < l.length),
      l.get ⟨j, hj⟩ ∉ l.eraseIdx j := by
  intro l
  induction l with
  | nil => intro _ j hj; exact absurd hj (by simp)
  | cons a as ih =>
    intro hnd j hj
    simp only [List.nodup_cons] at hnd
    match j with
    | 0 => simpa using hnd.1
    | Nat.succ j' =>
      have hj' : j' < as.length := Nat.lt_of_succ_lt_succ hj
      simp only [List.get, List.eraseIdx_cons_succ, List.mem_cons]
      push_neg
      constructor
      · intro hc; exact hnd.1 (hc ▸ as.get_mem j' hj')
      · exact ih hnd.2 j' hj'

theorem sampleAux_spec :
    ∀ (k : ℕ) (pop : List String) (idx : ℕ → ℕ) (t : ℕ), k ≤ pop.length →
      (sampleAux pop k idx t).length = k ∧
        (∀ x ∈ sampleAux pop k idx t, x ∈ pop) ∧
        (pop.Nodup → (sampleAux pop k idx t).Nodup) := by
  intro k
  induction k with
  | zero => intro pop idx t _; exact ⟨rfl, by simp [sampleAux], by simp [sampleAux]⟩
  | succ k' ih =>
    intro pop idx t hk
    have hpos : 0 < pop.length := Nat.lt_of_lt_of_le (Nat.succ_pos k') hk
    have hj : idx t % pop.length < pop.length := Nat.mod_lt _ hpos
    have hget : pop[idx t % pop.length]? = some (pop.get ⟨_, hj⟩) :=
      List.getElem?_eq_getElem hj
    have hlen : (pop.eraseIdx (idx t % pop.length)).length + 1 = pop.length :=
      List.length_eraseIdx_add_one hj
    have hk' : k' ≤ (pop.eraseIdx (idx t % pop.length)).length := by omega
    obtain ⟨ihl, ihm, ihnd⟩ := ih (pop.eraseIdx (idx t % pop.length)) idx (t + 1) hk'
    have hunfold : sampleAux pop (k' + 1) idx t =
        pop.get ⟨_, hj⟩ :: sampleAux (pop.eraseIdx (idx t % pop.length)) k' idx (t + 1) := by
      simp only [sampleAux, hget]
    rw [hunfold]
    refine ⟨by simp [ihl], ?_, ?_⟩
    · intro x hx
      rcases List.mem_cons.mp hx with hx | hx
      · exact hx ▸ pop.get_mem _ hj
      · exact (List.eraseIdx_sublist pop (idx t % pop.length)).subset (ihm x hx)
    · intro hnd
      refine List.nodup_cons.mpr ⟨?_, ihnd ((List.eraseIdx_sublist pop _).nodup hnd)⟩
      intro hc
      exact getElem_not_mem_eraseIdx pop hnd _ hj (ihm _ hc)

theorem pySample_some (pop : List String) (k : ℕ) (idx : ℕ → ℕ) (t : ℕ)
    (hk : k ≤ pop.length) :
    pySample pop k idx t = some (sampleAux pop k idx t) := by
  simp [pySample, hk]

theorem pySample_spec (pop : List String) (k : ℕ) (idx : ℕ → ℕ) (t : ℕ)
    (hk : k ≤ pop.length) :
    ∃ sel, pySample pop k idx t = some sel ∧ sel.length = k ∧
      (∀ x ∈ sel, x ∈ pop) ∧ (pop.Nodup → sel.Nodup) := by
  obtain ⟨h1, h2, h3⟩ := sampleAux_spec k pop idx t hk
  exact ⟨sampleAux pop k idx t, pySample_some pop k idx t hk, h1, h2, h3⟩

theorem applyScenario_frame (cfg : RunConfig) (kL : ℕ) (us : ℕ → ℚ)
    (selL selG : List String) (c1 : Circuit) :
    loadNames (applyScenario cfg kL us selL selG c1) = loadNames c1 ∧
      genNames (applyScenario cfg kL us selL selG c1) = genNames c1 ∧
      (applyScenario cfg kL us selL selG c1).buses = c1.buses := by
  obtain ⟨l1, l2, l3⟩ :=
    perturbLoadsFrom_frame cfg.loadKwRange cfg.loadKvarRange us selL 0 c1
  obtain ⟨g1, g2, g3⟩ :=
    perturbGensFrom_frame cfg.genKwRange cfg.genKvarRange
      (fun t => us (2 * kL + t)) selG 0
      (perturbLoadsFrom cfg.loadKwRange cfg.loadKvarRange us selL 0 c1)
  refine ⟨?_, ?_, ?_⟩
  · show loadNames _ = _
    unfold applyScenario loadNames
    rw [g1]
    exact l3
  · show genNames _ = _
    unfold applyScenario
    rw [g3]
    exact congrArg (List.map Prod.fst) l1
  · unfold applyScenario
    rw [g2, l2]

theorem scenarioStep_eq (cfg : RunConfig) (orc : Oracle) (c0 c : Circuit)
    (idxs : ℕ → ℕ) (us : ℕ → ℚ)
    (hkL : kLoadOf cfg c0 ≤ (loadNames c0).length)
    (hkG : kGenOf cfg c0 ≤ (genNames c0).length)
    (hL : loadNames c = loadNames c0) (hG : genNames c = genNames c0) :
    ∃ selL selG,
      pySample (loadNames c0) (kLoadOf cfg c0) idxs 0 = some selL ∧
      pySample (genNames c0) (kGenOf cfg c0) idxs (kLoadOf cfg c0) = some selG ∧
      scenarioStep cfg orc c0.loads c0.gens (kLoadOf cfg c0) (kGenOf cfg c0)
          idxs us c =
        some (applyScenario cfg (kLoadOf cfg c0) us selL selG
            (reset_to_original_parameters c c0.loads c0.gens),
          (collect_data_for_ml orc (applyScenario cfg (kLoadOf cfg c0) us selL
              selG (reset_to_original_parameters c c0.loads c0.gens))).map
            (fun fl => fl.1 ++ fl.2)) := by
  have hres := reset_loads_gens_buses c c0.loads c0.gens
  have hL1 : loadNames (reset_to_original_parameters c c0.loads c0.gens) =
      loadNames c0 := hres.1.trans hL
  have hG1 : genNames (reset_to_original_parameters c c0.loads c0.gens) =
      genNames c0 := hres.2.1.trans hG
  refine ⟨sampleAux (loadNames c0) (kLoadOf cfg c0) idxs 0,
    sampleAux (genNames c0) (kGenOf cfg c0) idxs (kLoadOf cfg c0),
    pySample_some _ _ _ _ hkL, pySample_some _ _ _ _ hkG, ?_⟩
  simp only [scenarioStep, hL1, hG1, pySample_some _ _ _ _ hkL,
    pySample_some _ _ _ _ hkG]

theorem stateAt_names (cfg : RunConfig) (orc : Oracle) (c0 : Circuit)
    (r : Rand)
    (hkL : kLoadOf cfg c0 ≤ (loadNames c0).length)
    (hkG : kGenOf cfg c0 ≤ (genNames c0).length) :
    ∀ i, ∃ c, stateAt cfg orc c0 r i = some c ∧
      loadNames c = loadNames c0 ∧ genNames c = genNames c0 ∧
      c.buses = c0.buses := by
  intro i
  induction i with
  | zero => exact ⟨c0, rfl, rfl, rfl, rfl⟩
  | succ i ih =>
    obtain ⟨c, hc, hL, hG, hB⟩ := ih
    obtain ⟨selL, selG, hsL, hsG, hstep⟩ :=
      scenarioStep_eq cfg orc c0 c (r.idxs i) (r.us i) hkL hkG hL hG
    have hres := reset_loads_gens_buses c c0.loads c0.gens
    obtain ⟨a1, a2, a3⟩ := applyScenario_frame cfg (kLoadOf cfg c0) (r.us i)
      selL selG (reset_to_original_parameters c c0.loads c0.gens)
    refine ⟨applyScenario cfg (kLoadOf cfg c0) (r.us i) selL selG
        (reset_to_original_parameters c c0.loads c0.gens), ?_, ?_, ?_, ?_⟩
    · simp [stateAt, hc, hstep]
    · exact a1.trans (hres.1.trans hL)
    · exact a2.trans (hres.2.1.trans hG)
    · exact a3.trans (hres.2.2.trans hB)

theorem map_fst_loadFeatures :
    ∀ ls : List (String × Params),
      (loadFeatures ls).map Prod.fst = loadKeys (ls.map Prod.fst) := by
  intro ls
  induction ls with
  | nil => rfl
  | cons p rest ih => simp [loadFeatures, loadKeys, ih]

theorem map_fst_genFeatures :
    ∀ ls : List (String × Params),
      (genFeatures ls).map Prod.fst = genKeys (ls.map Prod.fst) := by
  intro ls
  induction ls with
  | nil => rfl
  | cons p rest ih => simp [genFeatures, genKeys, ih]

theorem map_fst_labels (buses : List String) (vs : List ℚ)
    (h : buses.length ≤ vs.length) :
    (labels buses vs).map Prod.fst = busKeys buses := by
  unfold labels busKeys
  rw [List.map_map]
  calc ((buses.zip vs).map
        (Prod.fst ∘ fun bv => ("bus_" ++ bv.1 ++ "_Vpu", bv.2)))
      = ((buses.zip vs).map ((fun b => "bus_" ++ b ++ "_Vpu") ∘ Prod.fst)) := rfl
    _ = (((buses.zip vs).map Prod.fst).map (fun b => "bus_" ++ b ++ "_Vpu")) := by
        rw [List.map_map]
    _ = buses.map (fun b => "bus_" ++ b ++ "_Vpu") := by
        rw [List.map_fst_zip buses vs h]

theorem row_keys (c : Circuit) (vs : List ℚ) (h : vs.length = c.buses.length) :
    (features c ++ labels c.buses vs).map Prod.fst = schemaOf c := by
  unfold features schemaOf
  rw [List.map_append, List.map_append, map_fst_loadFeatures,
    map_fst_genFeatures, map_fst_labels c.buses vs (le_of_eq h.symm)]
  rfl

theorem runFrom_spec (cfg : RunConfig) (orc : Oracle) (c0 : Circuit) (r : Rand)
    (hkL : kLoadOf cfg c0 ≤ (loadNames c0).length)
    (hkG : kGenOf cfg c0 ≤ (genNames c0).length) :
    ∀ (n i : ℕ) (c : Circuit), loadNames c = loadNames c0 →
      genNames c = genNames c0 → c.buses = c0.buses →
      ∃ rows, runFrom cfg orc c0.loads c0.gens (kLoadOf cfg c0)
          (kGenOf cfg c0) r i n c = some rows ∧
        rows.length + skippedFrom cfg orc c0.loads c0.gens (kLoadOf cfg c0)
          (kGenOf cfg c0) r i n c = n ∧
        ((∀ c', (orc.volts c').length = c'.buses.length) →
          ∀ row ∈ rows, row.map Prod.fst = schemaOf c0) := by
  intro n
  induction n with
  | zero =>
    intro i c _ _ _
    exact ⟨[], rfl, rfl, by intro _ row hrow; exact absurd hrow (by simp)⟩
  | succ n ih =>
    intro i c hL hG hB
    obtain ⟨selL, selG, hsL, hsG, hstep⟩ :=
      scenarioStep_eq cfg orc c0 c (r.idxs i) (r.us i) hkL hkG hL hG
    have hres := reset_loads_gens_buses c c0.loads c0.gens
    obtain ⟨a1, a2, a3⟩ := applyScenario_frame cfg (kLoadOf cfg c0) (r.us i)
      selL selG (reset_to_original_parameters c c0.loads c0.gens)
    obtain ⟨rest, hrest, hcount, hkeys⟩ :=
      ih (i + 1) (applyScenario cfg (kLoadOf cfg c0) (r.us i) selL selG
          (reset_to_original_parameters c c0.loads c0.gens))
        (a1.trans (hres.1.trans hL)) (a2.trans (hres.2.1.trans hG))
        (a3.trans (hres.2.2.trans hB))
    set c3 := applyScenario cfg (kLoadOf cfg c0) (r.us i) selL selG
      (reset_to_original_parameters c c0.loads c0.gens) with hc3
    refine ⟨((collect_data_for_ml orc c3).map (fun fl => fl.1 ++ fl.2)).toList
        ++ rest, ?_, ?_, ?_⟩
    · simp only [runFrom, hstep, hrest]
      rfl
    · simp only [skippedFrom, hstep]
      cases hconv : orc.converged c3 with
      | false =>
        simp [collect_data_for_ml, hconv]
        omega
      | true =>
        simp [collect_data_for_ml, hconv]
        omega
    · intro hV row hrow
      rcases List.mem_append.mp hrow with hrow | hrow
      · cases hconv : orc.converged c3 with
        | false =>
          simp [collect_data_for_ml, hconv] at hrow
        | true =>
          simp [collect_data_for_ml, hconv] at hrow
          subst hrow
          have hkeyrow := row_keys c3 (orc.volts c3) (hV c3)
          rw [hkeyrow]
          unfold schemaOf
          rw [a1.trans (hres.1.trans hL), a2.trans (hres.2.1.trans hG),
            a3.trans (hres.2.2.trans hB)]
      · exact hkeys hV row hrow

theorem contains_of_mem (K : List String) (a : String) (ha : a ∈ K) :
    K.contains a = true := by
  simp [List.contains_iff_exists_mem_beq]
  exact ha

theorem dfColumns_fold_fixed (K : List String) :
    ∀ rows : List Row, (∀ row ∈ rows, row.map Prod.fst = K) →
      rows.foldl (fun cols row =>
        cols ++ (row.map Prod.fst).filter (fun k => !(cols.contains k))) K = K := by
  intro rows
  induction rows with
  | nil => intro _; rfl
  | cons row rest ih =>
    intro h
    have hrow := h row (List.mem_cons_self row rest)
    simp only [List.foldl_cons, hrow]
    have hfilter : K.filter (fun k => !(K.contains k)) = [] := by
      rw [List.filter_eq_nil_iff]
      intro a ha
      simpa [contains_of_mem K a ha] using ha
    rw [hfilter, List.append_nil]
    exact ih (fun r hr => h r (List.mem_cons_of_mem _ hr))

theorem dfColumns_of_same_keys (K : List String) (rows : List Row)
    (h : ∀ row ∈ rows, row.map Prod.fst = K) (hne : rows ≠ []) :
    dfColumns rows = K := by
  match rows with
  | [] => exact absurd rfl hne
  | row :: rest =>
    unfold dfColumns
    simp only [List.foldl_cons]
    rw [h row (List.mem_cons_self row rest)]
    have hstart : ([] : List String) ++
        K.filter (fun k => !(([] : List String).contains k)) = K := by simp
    rw [hstart]
    exact dfColumns_fold_fixed K rest (fun r hr => h r (List.mem_cons_of_mem _ hr))

theorem pyInt_nonneg (q : ℚ) (h : 0 ≤ q) : pyInt q = ⌊q⌋ := if_pos h

theorem number_of_loads_floor (pct : ℚ) (total : ℕ) (h : 0 ≤ pct) :
    number_of_loads_to_change pct total =
      (max 1 ⌊pct / 100 * (total : ℚ)⌋).toNat := by
  unfold number_of_loads_to_change
  rw [pyInt_nonneg _ (mul_nonneg (div_nonneg h (by norm_num))
    (Nat.cast_nonneg total))]

theorem number_of_loads_le_total (pct : ℚ) (total : ℕ)
    (h0 : 0 ≤ pct) (h100 : pct ≤ 100) (h1 : 1 ≤ total) :
    number_of_loads_to_change pct total ≤ total := by
  rw [number_of_loads_floor pct total h0]
  have hdiv : pct / 100 ≤ 1 := by
    rw [div_le_one (by norm_num : (0:ℚ) < 100)]
    exact h100
  have hle : pct / 100 * (total : ℚ) ≤ (total : ℚ) := by
    calc pct / 100 * (total : ℚ) ≤ 1 * (total : ℚ) :=
          mul_le_mul_of_nonneg_right hdiv (Nat.cast_nonneg total)
      _ = (total : ℚ) := one_mul _
  have hfl : ⌊pct / 100 * (total : ℚ)⌋ ≤ (total : ℤ) :=
    le_of_le_of_eq (Int.floor_le_floor hle) (Int.floor_natCast total)
  exact Int.toNat_le.mpr (max_le (by exact_mod_cast h1) hfl)

theorem runFrom_rand_agree (cfg : RunConfig) (orc : Oracle)
    (origL origG : List (String × Params)) (kL kG : ℕ) (r1 r2 : Rand) :
    ∀ (n i : ℕ) (c : Circuit),
      (∀ j, i ≤ j → j < i + n → r1.idxs j = r2.idxs j ∧ r1.us j = r2.us j) →
      runFrom cfg orc origL origG kL kG r1 i n c =
        runFrom cfg orc origL origG kL kG r2 i n c := by
  intro n
  induction n with
  | zero => intro i c _; rfl
  | succ n ih =>
    intro i c h
    have hi := h i (le_refl i) (by omega)
    simp only [runFrom, hi.1, hi.2]
    cases hstep : scenarioStep cfg orc origL origG kL kG (r2.idxs i)
        (r2.us i) c with
    | none => rfl
    | some pr =>
      obtain ⟨c', rowOpt⟩ := pr
      simp only [ih (i + 1) c' (fun j hj1 hj2 => h j (by omega) (by omega))]

theorem number_of_gens_floor (pct : ℚ) (total : ℕ) (h : 0 ≤ pct) :
    number_of_generators_to_change pct total =
      (max 1 ⌊pct / 100 * (total : ℚ)⌋).toNat := by
  unfold number_of_generators_to_change
  rw [pyInt_nonneg _ (mul_nonneg (div_nonneg h (by norm_num))
    (Nat.cast_nonneg total))]

/-- Claim C1, counterexample: the code computes the selection count with
Python int() truncation, not rounding.  With the script's own 70 percent
loads fraction and 4 loads, the code selects max(1, int(2.8)) = 2 loads,
while the spec formula max(1, round(0.7 * 4)) gives 3. -/
theorem selection_count_not_round_at_70pct_4loads :
    number_of_loads_to_change 70 4 ≠ specSelectionCount (70 / 100) 4 := by
  have h1 : number_of_loads_to_change 70 4 = 2 := by
    norm_num [number_of_loads_to_change, pyInt, Int.toNat_ofNat]
    rfl
  have h2 : specSelectionCount (70 / 100) 4 = 3 := by
    norm_num [specSelectionCount, round_eq, Int.toNat_ofNat]
    rfl
  rw [h1, h2]
  omega

/-- Claim C1, amended: for every run configuration with a nonnegative
percentage, the number of loads (and of generators) selected equals
max(1, floor(pct/100 * total)) — truncation toward zero, not rounding — and
in particular with 4 loads and fraction 0.1 the count is 1, not 0. -/
theorem selection_count_trunc_amended :
    (∀ (pct : ℚ) (total : ℕ), 0 ≤ pct →
        number_of_loads_to_change pct total =
          (max 1 ⌊pct / 100 * (total : ℚ)⌋).toNat ∧
        number_of_generators_to_change pct total =
          (max 1 ⌊pct / 100 * (total : ℚ)⌋).toNat) ∧
      number_of_loads_to_change 10 4 = 1 ∧
      number_of_generators_to_change 10 4 = 1 := by
  refine ⟨fun pct total h =>
    ⟨number_of_loads_floor pct total h, number_of_gens_floor pct total h⟩, ?_, ?_⟩
  · norm_num [number_of_loads_to_change, pyInt, Int.toNat_ofNat]
  · norm_num [number_of_generators_to_change, pyInt, Int.toNat_ofNat]

/-- Witness for the amended claim C1 at pct = 70, total = 5. -/
theorem selection_count_trunc_amended_witness :
    number_of_loads_to_change 70 5 =
      (max 1 ⌊(70 : ℚ) / 100 * ((5 : ℕ) : ℚ)⌋).toNat :=
  (selection_count_trunc_amended.1 70 5 (by norm_num)).1

/-- Claim C5, counterexample: the code never clamps the selection count.
With 150 percent requested on a 4-load circuit it computes k = 6 > 4,
random.sample raises, and the whole run aborts instead of selecting. -/
theorem selection_count_not_clamped_aborts :
    number_of_loads_to_change 150 4 = 6 ∧ 4 < 6 ∧
      mainRun cfg150 orcW circuit4 randZero = none := by
  refine ⟨?_, by omega, ?_⟩
  · norm_num [number_of_loads_to_change, pyInt, Int.toNat_ofNat]
    rfl
  · norm_num [mainRun, runFrom, scenarioStep, store_original_parameters,
      kLoadOf, kGenOf, number_of_loads_to_change,
      number_of_generators_to_change, pyInt, circuit4, cfg150, cfgS,
      loadNames, genNames, reset_to_original_parameters, setParam, pySample,
      sampleAux, randZero]

/-- Claim C5, amended: no clamping happens; instead, whenever the requested
percentage lies in [0, 100] and at least one component exists, the computed k
never exceeds the total, so random.sample succeeds; outside those bounds the
selection fails and the run aborts. -/
theorem selection_within_bounds_succeeds (pct : ℚ) (total : ℕ)
    (h0 : 0 ≤ pct) (h100 : pct ≤ 100) (h1 : 1 ≤ total) :
    number_of_loads_to_change pct total ≤ total ∧
      number_of_generators_to_change pct total ≤ total ∧
      ∀ (pop : List String) (idx : ℕ → ℕ) (t : ℕ), pop.length = total →
        (pySample pop (number_of_loads_to_change pct total) idx t).isSome = true := by
  refine ⟨number_of_loads_le_total pct total h0 h100 h1,
    number_of_loads_le_total pct total h0 h100 h1, ?_⟩
  intro pop idx t hlen
  rw [pySample_some pop _ idx t
    (by rw [hlen]; exact number_of_loads_le_total pct total h0 h100 h1)]
  rfl

/-- Witness for the amended claim C5 at pct = 70 over a 5-name population. -/
theorem selection_within_bounds_succeeds_witness :
    number_of_loads_to_change 70 5 ≤ 5 ∧
      number_of_generators_to_change 70 5 ≤ 5 ∧
      ∀ (pop : List String) (idx : ℕ → ℕ) (t : ℕ), pop.length = 5 →
        (pySample pop (number_of_loads_to_change 70 5) idx t).isSome = true :=
  selection_within_bounds_succeeds 70 5 (by norm_num) (by norm_num)
    (by norm_num)

/-- Claim C6, counterexample: the sampler accepts no seed, so the global
random stream is not fixed across runs; two runs that consume different
streams produce different output tables even with identical configuration,
circuit and a fixed deterministic oracle. -/
theorem different_rng_streams_different_tables :
    mainRun cfgS orcW circuitS randZero ≠ mainRun cfgS orcW circuitS randHalf := by
  norm_num [mainRun, runFrom, scenarioStep, applyScenario,
    store_original_parameters, kLoadOf, kGenOf, number_of_loads_to_change,
    number_of_generators_to_change, pyInt, circuitS, cfgS, loadNames,
    genNames, reset_to_original_parameters, setParam, pySample, sampleAux,
    perturbLoadsFrom, perturbGensFrom, modify_load_parameters,
    modify_generator_parameters, modifyList, applyPcts, applyPct, pyUniform,
    collect_data_for_ml, orcW, randZero, randHalf, features, loadFeatures,
    genFeatures, labels]

/-- Claim C6, amended: the run's output is a function of the configuration,
circuit, oracle and the raw random draws it consumes; two runs whose streams
agree on every scenario below the configured count produce identical tables.
The program itself offers no seed parameter with which to fix that stream. -/
theorem output_determined_by_rng_stream (cfg : RunConfig) (orc : Oracle)
    (c0 : Circuit) (r1 r2 : Rand)
    (h : ∀ i, i < cfg.numSims → r1.idxs i = r2.idxs i ∧ r1.us i = r2.us i) :
    mainRun cfg orc c0 r1 = mainRun cfg orc c0 r2 := by
  unfold mainRun
  exact runFrom_rand_agree cfg orc c0.loads c0.gens (kLoadOf cfg c0)
    (kGenOf cfg c0) r1 r2 cfg.numSims 0 c0 (fun j hj1 hj2 => h j (by omega))

/-- Witness for the amended claim C6: randZero and randLate agree on the
single scenario cfgS requests, so the two runs coincide. -/
theorem output_determined_by_rng_stream_witness :
    mainRun cfgS orcW circuitS randZero = mainRun cfgS orcW circuitS randLate :=
  output_determined_by_rng_stream cfgS orcW circuitS randZero randLate (by
    intro i hi
    have h1 : cfgS.numSims = 1 := rfl
    have h0 : i = 0 := by omega
    subst h0
    constructor <;> funext t <;> simp [randZero, randLate])

/-- Claim C8: in every scenario the load and generator selections are drawn
without replacement from the circuit's name lists: both samples succeed, the
chosen names are pairwise distinct within each category, have the computed
lengths k, and every chosen name belongs to the corresponding name set. -/
theorem selection_without_replacement (cfg : RunConfig) (c0 : Circuit)
    (r : Rand)
    (hndL : (loadNames c0).Nodup) (hndG : (genNames c0).Nodup)
    (hkL : kLoadOf cfg c0 ≤ (loadNames c0).length)
    (hkG : kGenOf cfg c0 ≤ (genNames c0).length) (i : ℕ) :
    ∃ selL selG, selLoadsAt cfg c0 r i = some selL ∧
      selGensAt cfg c0 r i = some selG ∧
      selL.Nodup ∧ selG.Nodup ∧
      selL.length = kLoadOf cfg c0 ∧ selG.length = kGenOf cfg c0 ∧
      (∀ x ∈ selL, x ∈ loadNames c0) ∧ (∀ x ∈ selG, x ∈ genNames c0) := by
  obtain ⟨selL, hL1, hL2, hL3, hL4⟩ :=
    pySample_spec (loadNames c0) (kLoadOf cfg c0) (r.idxs i) 0 hkL
  obtain ⟨selG, hG1, hG2, hG3, hG4⟩ :=
    pySample_spec (genNames c0) (kGenOf cfg c0) (r.idxs i) (kLoadOf cfg c0) hkG
  exact ⟨selL, selG, hL1, hG1, hL4 hndL, hG4 hndG, hL2, hG2, hL3, hG3⟩

/-- Witness for claim C8 on the concrete two-load circuit at scenario 0. -/
theorem selection_without_replacement_witness :
    ∃ selL selG, selLoadsAt cfgW circuitW randZero 0 = some selL ∧
      selGensAt cfgW circuitW randZero 0 = some selG ∧
      selL.Nodup ∧ selG.Nodup ∧
      selL.length = kLoadOf cfgW circuitW ∧
      selG.length = kGenOf cfgW circuitW ∧
      (∀ x ∈ selL, x ∈ loadNames circuitW) ∧
      (∀ x ∈ selG, x ∈ genNames circuitW) :=
  selection_without_replacement cfgW circuitW randZero
    (by decide) (by decide)
    (by norm_num [kLoadOf, number_of_loads_to_change, pyInt, cfgW, circuitW,
      loadNames])
    (by norm_num [kGenOf, number_of_generators_to_change, pyInt, cfgW,
      circuitW, genNames]) 0

/-- Claim C10: calling the single-component modify operations with a None
percentage for an attribute leaves that attribute unchanged on every load
respectively generator: a None kW change writes no kW, a None kvar change
writes no kvar, for loads and for generators alike. -/
theorem none_pct_change_preserves_attribute (c : Circuit) (name : String)
    (kw kv : Option ℚ) :
    ((modify_load_parameters c name none kv).loads.map
        (fun p => (p.1, p.2.kW)) = c.loads.map (fun p => (p.1, p.2.kW))) ∧
    ((modify_load_parameters c name kw none).loads.map
        (fun p => (p.1, p.2.kvar)) = c.loads.map (fun p => (p.1, p.2.kvar))) ∧
    ((modify_generator_parameters c name none kv).gens.map
        (fun p => (p.1, p.2.kW)) = c.gens.map (fun p => (p.1, p.2.kW))) ∧
    ((modify_generator_parameters c name kw none).gens.map
        (fun p => (p.1, p.2.kvar)) = c.gens.map (fun p => (p.1, p.2.kvar))) := by
  refine ⟨?_, ?_, ?_, ?_⟩ <;>
  · simp only [modify_load_parameters, modify_generator_parameters,
      modifyList, List.map_map]
    apply List.map_congr_left
    intro p _
    by_cases hp : p.1 = name <;> simp [hp, applyPcts, applyPct]

/-- Claim C2: in every scenario of a run, every load and every generator not
selected for perturbation in that scenario carries exactly its Snapshot value
at solve time (the solve-time circuit is the run state entering the next
scenario): no scenario's perturbation leaks into the next. -/
theorem unselected_components_equal_snapshot (cfg : RunConfig) (orc : Oracle)
    (c0 : Circuit) (r : Rand)
    (hndL : (loadNames c0).Nodup) (hndG : (genNames c0).Nodup)
    (hkL : kLoadOf cfg c0 ≤ (loadNames c0).length)
    (hkG : kGenOf cfg c0 ≤ (genNames c0).length)
    (i : ℕ) (selL selG : List String)
    (hselL : selLoadsAt cfg c0 r i = some selL)
    (hselG : selGensAt cfg c0 r i = some selG) :
    ∃ c', stateAt cfg orc c0 r (i + 1) = some c' ∧
      (∀ n, n ∉ selL → getParam n c'.loads = getParam n c0.loads) ∧
      (∀ n, n ∉ selG → getParam n c'.gens = getParam n c0.gens) := by
  obtain ⟨c, hc, hL, hG, hB⟩ := stateAt_names cfg orc c0 r hkL hkG i
  obtain ⟨selL', selG', hsL, hsG, hstep⟩ :=
    scenarioStep_eq cfg orc c0 c (r.idxs i) (r.us i) hkL hkG hL hG
  have heqL : selL' = selL := Option.some.inj (hsL.symm.trans hselL)
  have heqG : selG' = selG := Option.some.inj (hsG.symm.trans hselG)
  subst heqL
  subst heqG
  obtain ⟨hr1, hr2, hr3⟩ := reset_restores c c0 hL hG hndL hndG
  refine ⟨applyScenario cfg (kLoadOf cfg c0) (r.us i) selL' selG'
      (reset_to_original_parameters c c0.loads c0.gens), ?_, ?_, ?_⟩
  · simp [stateAt, hc, hstep]
  · intro n hn
    have hpg := (perturbGensFrom_frame cfg.genKwRange cfg.genKvarRange
      (fun t => r.us i (2 * kLoadOf cfg c0 + t)) selG' 0
      (perturbLoadsFrom cfg.loadKwRange cfg.loadKvarRange (r.us i) selL' 0
        (reset_to_original_parameters c c0.loads c0.gens))).1
    unfold applyScenario
    rw [hpg, getParam_perturbLoadsFrom_not_mem cfg.loadKwRange
      cfg.loadKvarRange (r.us i) selL' 0 _ n hn, hr1]
  · intro n hn
    have hpl := (perturbLoadsFrom_frame cfg.loadKwRange cfg.loadKvarRange
      (r.us i) selL' 0 (reset_to_original_parameters c c0.loads c0.gens)).1
    unfold applyScenario
    rw [getParam_perturbGensFrom_not_mem cfg.genKwRange cfg.genKvarRange
      (fun t => r.us i (2 * kLoadOf cfg c0 + t)) selG' 0 _ n hn, hpl, hr2]

/-- Witness for claim C2: on the concrete circuit the scenario selects load
l1 and generator g1; load l2 keeps its snapshot values at solve time. -/
theorem unselected_components_equal_snapshot_witness :
    ∃ c', stateAt cfgW orcW circuitW randZero 1 = some c' ∧
      (∀ n, n ∉ (["l1"] : List String) →
        getParam n c'.loads = getParam n circuitW.loads) ∧
      (∀ n, n ∉ (["g1"] : List String) →
        getParam n c'.gens = getParam n circuitW.gens) :=
  unselected_components_equal_snapshot cfgW orcW circuitW randZero
    (by decide) (by decide)
    (by norm_num [kLoadOf, number_of_loads_to_change, pyInt, cfgW, circuitW,
      loadNames])
    (by norm_num [kGenOf, number_of_generators_to_change, pyInt, cfgW,
      circuitW, genNames])
    0 ["l1"] ["g1"]
    (by norm_num [selLoadsAt, pySample, sampleAux, kLoadOf,
      number_of_loads_to_change, pyInt, cfgW, circuitW, loadNames, randZero])
    (by norm_num [selGensAt, pySample, sampleAux, kLoadOf, kGenOf,
      number_of_loads_to_change, number_of_generators_to_change, pyInt, cfgW,
      circuitW, loadNames, genNames, randZero])

/-- Claim C4: for every selected component in every scenario, the solve-time
value of each attribute equals the Snapshot value multiplied by
1 + pct/100, where pct is the uniform percentage drawn for that attribute —
the factor applies to the snapshot, never to an already-mutated value. -/
theorem perturbation_scales_snapshot_value (cfg : RunConfig) (orc : Oracle)
    (c0 : Circuit) (r : Rand)
    (hndL : (loadNames c0).Nodup) (hndG : (genNames c0).Nodup)
    (hkL : kLoadOf cfg c0 ≤ (loadNames c0).length)
    (hkG : kGenOf cfg c0 ≤ (genNames c0).length)
    (i : ℕ) (selL selG : List String)
    (hselL : selLoadsAt cfg c0 r i = some selL)
    (hselG : selGensAt cfg c0 r i = some selG) :
    ∃ c', stateAt cfg orc c0 r (i + 1) = some c' ∧
      (∀ (m : ℕ) (hm : m < selL.length),
        getParam (selL.get ⟨m, hm⟩) c'.loads =
          (getParam (selL.get ⟨m, hm⟩) c0.loads).map (fun p =>
            ⟨p.kW * (1 + pyUniform cfg.loadKwRange.1 cfg.loadKwRange.2
                (r.us i (2 * m)) / 100),
             p.kvar * (1 + pyUniform cfg.loadKvarRange.1 cfg.loadKvarRange.2
                (r.us i (2 * m + 1)) / 100)⟩)) ∧
      (∀ (m : ℕ) (hm : m < selG.length),
        getParam (selG.get ⟨m, hm⟩) c'.gens =
          (getParam (selG.get ⟨m, hm⟩) c0.gens).map (fun p =>
            ⟨p.kW * (1 + pyUniform cfg.genKwRange.1 cfg.genKwRange.2
                (r.us i (2 * kLoadOf cfg c0 + 2 * m)) / 100),
             p.kvar * (1 + pyUniform cfg.genKvarRange.1 cfg.genKvarRange.2
                (r.us i (2 * kLoadOf cfg c0 + (2 * m + 1))) / 100)⟩)) := by
  obtain ⟨c, hc, hL, hG, hB⟩ := stateAt_names cfg orc c0 r hkL hkG i
  obtain ⟨selL', selG', hsL, hsG, hstep⟩ :=
    scenarioStep_eq cfg orc c0 c (r.idxs i) (r.us i) hkL hkG hL hG
  have heqL : selL' = selL := Option.some.inj (hsL.symm.trans hselL)
  have heqG : selG' = selG := Option.some.inj (hsG.symm.trans hselG)
  subst heqL
  subst heqG
  obtain ⟨selLx, hx1, hx2, hx3, hx4⟩ :=
    pySample_spec (loadNames c0) (kLoadOf cfg c0) (r.idxs i) 0 hkL
  have hxeq : selLx = selL' := Option.some.inj (hx1.symm.trans hsL)
  subst hxeq
  obtain ⟨selGx, hy1, hy2, hy3, hy4⟩ :=
    pySample_spec (genNames c0) (kGenOf cfg c0) (r.idxs i) (kLoadOf cfg c0) hkG
  have hyeq : selGx = selG' := Option.some.inj (hy1.symm.trans hsG)
  subst hyeq
  obtain ⟨hr1, hr2, hr3⟩ := reset_restores c c0 hL hG hndL hndG
  refine ⟨applyScenario cfg (kLoadOf cfg c0) (r.us i) selLx selGx
      (reset_to_original_parameters c c0.loads c0.gens), ?_, ?_, ?_⟩
  · simp [stateAt, hc, hstep]
  · intro m hm
    have hpg := (perturbGensFrom_frame cfg.genKwRange cfg.genKvarRange
      (fun t => r.us i (2 * kLoadOf cfg c0 + t)) selGx 0
      (perturbLoadsFrom cfg.loadKwRange cfg.loadKvarRange (r.us i) selLx 0
        (reset_to_original_parameters c c0.loads c0.gens))).1
    unfold applyScenario
    rw [hpg, getParam_perturbLoadsFrom_mem cfg.loadKwRange cfg.loadKvarRange
      (r.us i) selLx 0 _ (hx4 hndL) m hm, hr1]
    simp only [Nat.zero_add]
    rfl
  · intro m hm
    have hpl := (perturbLoadsFrom_frame cfg.loadKwRange cfg.loadKvarRange
      (r.us i) selLx 0 (reset_to_original_parameters c c0.loads c0.gens)).1
    unfold applyScenario
    rw [getParam_perturbGensFrom_mem cfg.genKwRange cfg.genKvarRange
      (fun t => r.us i (2 * kLoadOf cfg c0 + t)) selGx 0 _ (hy4 hndG) m hm,
      hpl, hr2]
    simp only [Nat.zero_add]
    rfl

/-- Witness for claim C4 on the concrete circuit at scenario 0. -/
theorem perturbation_scales_snapshot_value_witness :
    ∃ c', stateAt cfgW orcW circuitW randZero 1 = some c' ∧
      (∀ (m : ℕ) (hm : m < (["l1"] : List String).length),
        getParam ((["l1"] : List String).get ⟨m, hm⟩) c'.loads =
          (getParam ((["l1"] : List String).get ⟨m, hm⟩)
              circuitW.loads).map (fun p =>
            ⟨p.kW * (1 + pyUniform cfgW.loadKwRange.1 cfgW.loadKwRange.2
                (randZero.us 0 (2 * m)) / 100),
             p.kvar * (1 + pyUniform cfgW.loadKvarRange.1
                cfgW.loadKvarRange.2 (randZero.us 0 (2 * m + 1)) / 100)⟩)) ∧
      (∀ (m : ℕ) (hm : m < (["g1"] : List String).length),
        getParam ((["g1"] : List String).get ⟨m, hm⟩) c'.gens =
          (getParam ((["g1"] : List String).get ⟨m, hm⟩)
              circuitW.gens).map (fun p =>
            ⟨p.kW * (1 + pyUniform cfgW.genKwRange.1 cfgW.genKwRange.2
                (randZero.us 0 (2 * kLoadOf cfgW circuitW + 2 * m)) / 100),
             p.kvar * (1 + pyUniform cfgW.genKvarRange.1 cfgW.genKvarRange.2
                (randZero.us 0 (2 * kLoadOf cfgW circuitW + (2 * m + 1)))
                  / 100)⟩)) :=
  perturbation_scales_snapshot_value cfgW orcW circuitW randZero
    (by decide) (by decide)
    (by norm_num [kLoadOf, number_of_loads_to_change, pyInt, cfgW, circuitW,
      loadNames])
    (by norm_num [kGenOf, number_of_generators_to_change, pyInt, cfgW,
      circuitW, genNames])
    0 ["l1"] ["g1"]
    (by norm_num [selLoadsAt, pySample, sampleAux, kLoadOf,
      number_of_loads_to_change, pyInt, cfgW, circuitW, loadNames, randZero])
    (by norm_num [selGensAt, pySample, sampleAux, kLoadOf, kGenOf,
      number_of_loads_to_change, number_of_generators_to_change, pyInt, cfgW,
      circuitW, loadNames, genNames, randZero])

/-- Claim C9: the snapshot is captured exactly once, from the circuit state
before any scenario, and is never mutated: at every scenario index the reset
performed with that snapshot restores precisely the initial loads and
generators, the same baseline every time. -/
theorem snapshot_resets_to_same_baseline (cfg : RunConfig) (orc : Oracle)
    (c0 : Circuit) (r : Rand)
    (hndL : (loadNames c0).Nodup) (hndG : (genNames c0).Nodup)
    (hkL : kLoadOf cfg c0 ≤ (loadNames c0).length)
    (hkG : kGenOf cfg c0 ≤ (genNames c0).length) (i : ℕ) :
    ∃ c, stateAt cfg orc c0 r i = some c ∧
      (reset_to_original_parameters c (store_original_parameters c0).1
          (store_original_parameters c0).2).loads = c0.loads ∧
      (reset_to_original_parameters c (store_original_parameters c0).1
          (store_original_parameters c0).2).gens = c0.gens := by
  obtain ⟨c, hc, hL, hG, _⟩ := stateAt_names cfg orc c0 r hkL hkG i
  obtain ⟨h1, h2, _⟩ := reset_restores c c0 hL hG hndL hndG
  exact ⟨c, hc, h1, h2⟩

/-- Witness for claim C9 at scenario index 1. -/
theorem snapshot_resets_to_same_baseline_witness :
    ∃ c, stateAt cfgW orcW circuitW randZero 1 = some c ∧
      (reset_to_original_parameters c
          (store_original_parameters circuitW).1
          (store_original_parameters circuitW).2).loads = circuitW.loads ∧
      (reset_to_original_parameters c
          (store_original_parameters circuitW).1
          (store_original_parameters circuitW).2).gens = circuitW.gens :=
  snapshot_resets_to_same_baseline cfgW orcW circuitW randZero
    (by decide) (by decide)
    (by norm_num [kLoadOf, number_of_loads_to_change, pyInt, cfgW, circuitW,
      loadNames])
    (by norm_num [kGenOf, number_of_generators_to_change, pyInt, cfgW,
      circuitW, genNames]) 1

/-- Claim C3, counterexample: the script records no skipped-scenario count.
A one-scenario run whose solve fails to converge produces exactly the same
output as a zero-scenario run, although the skipped counts differ (1 versus
0): the skip leaves no trace in anything the program stores or writes. -/
theorem skip_count_not_recorded_in_output :
    mainRun cfgS orcNever circuitS randZero =
        mainRun cfgS0 orcW circuitS randZero ∧
      skippedCount cfgS orcNever circuitS randZero = 1 ∧
      skippedCount cfgS0 orcW circuitS randZero = 0 := by
  refine ⟨?_, ?_, ?_⟩
  · norm_num [mainRun, runFrom, scenarioStep, applyScenario,
      store_original_parameters, kLoadOf, kGenOf, number_of_loads_to_change,
      number_of_generators_to_change, pyInt, circuitS, cfgS, cfgS0,
      loadNames, genNames, reset_to_original_parameters, setParam, pySample,
      sampleAux, perturbLoadsFrom, perturbGensFrom, modify_load_parameters,
      modify_generator_parameters, modifyList, applyPcts, applyPct,
      pyUniform, collect_data_for_ml, orcW, orcNever, randZero]
  · norm_num [skippedCount, skippedFrom, scenarioStep, applyScenario,
      store_original_parameters, kLoadOf, kGenOf, number_of_loads_to_change,
      number_of_generators_to_change, pyInt, circuitS, cfgS, loadNames,
      genNames, reset_to_original_parameters, setParam, pySample, sampleAux,
      perturbLoadsFrom, perturbGensFrom, modify_load_parameters,
      modify_generator_parameters, modifyList, applyPcts, applyPct,
      pyUniform, collect_data_for_ml, orcNever, randZero]
  · norm_num [skippedCount, skippedFrom, cfgS0, cfgS, circuitS]

/-- Claim C3, amended: a non-converged scenario contributes no row and the
batch loop continues with the next scenario; for every requested N ≥ 1 the
run completes with retained ≤ N and retained + skipped = N, where skipped is
the number of non-converged scenarios along the run — a quantity the program
itself never stores or reports. -/
theorem retained_rows_plus_skipped_eq_requested (cfg : RunConfig)
    (orc : Oracle) (c0 : Circuit) (r : Rand)
    (hkL : kLoadOf cfg c0 ≤ (loadNames c0).length)
    (hkG : kGenOf cfg c0 ≤ (genNames c0).length)
    (hN : 1 ≤ cfg.numSims) :
    ∃ rows, mainRun cfg orc c0 r = some rows ∧
      rows.length ≤ cfg.numSims ∧
      rows.length + skippedCount cfg orc c0 r = cfg.numSims := by
  obtain ⟨rows, h1, h2, _⟩ :=
    runFrom_spec cfg orc c0 r hkL hkG cfg.numSims 0 c0 rfl rfl rfl
  exact ⟨rows, h1, by omega, h2⟩

/-- Witness for the amended claim C3: the never-converging one-scenario run
retains 0 rows and skips 1. -/
theorem retained_rows_plus_skipped_eq_requested_witness :
    ∃ rows, mainRun cfgS orcNever circuitS randZero = some rows ∧
      rows.length ≤ cfgS.numSims ∧
      rows.length + skippedCount cfgS orcNever circuitS randZero =
        cfgS.numSims :=
  retained_rows_plus_skipped_eq_requested cfgS orcNever circuitS randZero
    (by norm_num [kLoadOf, number_of_loads_to_change, pyInt, cfgS, circuitS,
      loadNames])
    (by norm_num [kGenOf, number_of_generators_to_change, pyInt, cfgS,
      circuitS, genNames])
    (by decide)

/-- Claim C7: across all retained rows of one run the column list is the
same, in the same order, and the persisted table's columns are all feature
columns first (loads then generators, in first-seen order) followed by all
label columns in first-seen order, provided the oracle returns one voltage
per bus. -/
theorem schema_stable_and_ordered (cfg : RunConfig) (orc : Oracle)
    (c0 : Circuit) (r : Rand)
    (hkL : kLoadOf cfg c0 ≤ (loadNames c0).length)
    (hkG : kGenOf cfg c0 ≤ (genNames c0).length)
    (hV : ∀ c', (orc.volts c').length = c'.buses.length) :
    ∃ rows, mainRun cfg orc c0 r = some rows ∧
      (∀ row ∈ rows, row.map Prod.fst = schemaOf c0) ∧
      (rows ≠ [] → dfColumns rows = schemaOf c0) := by
  obtain ⟨rows, h1, _, h3⟩ :=
    runFrom_spec cfg orc c0 r hkL hkG cfg.numSims 0 c0 rfl rfl rfl
  exact ⟨rows, h1, h3 hV, fun hne => dfColumns_of_same_keys _ rows (h3 hV) hne⟩

/-- Witness for claim C7 on the concrete circuit and always-converging
oracle. -/
theorem schema_stable_and_ordered_witness :
    ∃ rows, mainRun cfgW orcW circuitW randZero = some rows ∧
      (∀ row ∈ rows, row.map Prod.fst = schemaOf circuitW) ∧
      (rows ≠ [] → dfColumns rows = schemaOf circuitW) :=
  schema_stable_and_ordered cfgW orcW circuitW randZero
    (by norm_num [kLoadOf, number_of_loads_to_change, pyInt, cfgW, circuitW,
      loadNames])
    (by norm_num [kGenOf, number_of_generators_to_change, pyInt, cfgW,
      circuitW, genNames])
    (by intro c'; simp [orcW])

end GenData
